import Mathlib

/-!
# LoopWithIOTest

A shallow embedding of `src/LoopWithIOTest/main.cpp`: the missile update
functions under each of the three target-reference layouts selected by the
preprocessor (`DIRECT_VALUE`, the default embedded pointer, `SEPARATE_POINTER`),
the fused and two-loop tick loops of `main`, the timing loop, and the statistics
computed over the recorded durations.

Conventions.
* `Vector3.h` is not part of the sources at hand. The operations `main.cpp` uses
  from it are a parameter (`VectorOps`); `Vector3` is a model of it after the
  specification, used to evaluate the code on concrete inputs and to reason over
  the real numbers.
* A `const Body*` into `planes` is the index of the plane it points at; reading
  through it is `planes[i]?`.
* An operation whose behaviour is undefined in C++ (reading outside a vector,
  dividing by zero) yields `none`.
* `long long` values are `Int`; `unsigned long long` values are `Nat` reduced
  modulo `2 ^ 64` after every operation.
* The two preprocessor switches `WRITE_AT_END` and `TWO_LOOPS` are `Bool`
  arguments; the layout switches select one of three namespaces.
-/

namespace LoopWithIOTest

/-! ## The vector primitive -/

/-- The operations of `math::Vector3<float>` that `main.cpp` uses, over a scalar
type `S` and a vector type `V`: `operator+` (and `operator+=`, its in-place form),
`operator-`, `operator*` by a scalar, `Normalized()` and the value-initialised
`Vector { }`. -/
structure VectorOps (S V : Type) where
  add : V → V → V
  sub : V → V → V
  mul : V → S → V
  Normalized : V → V
  zero : V

/-- Modelled from the spec: the header `Vector3.h` is missing; the spec describes a
3-component vector with add, subtract, scalar multiply and a normalize that divides
by the magnitude. -/
structure Vector3 (S : Type) where
  x : S
  y : S
  z : S
deriving DecidableEq

namespace Vector3

variable {S : Type} [Add S] [Sub S] [Mul S] [Div S]

/-- Modelled from the spec: componentwise addition of `Vector3.h`. -/
def add (a b : Vector3 S) : Vector3 S := ⟨a.x + b.x, a.y + b.y, a.z + b.z⟩

/-- Modelled from the spec: componentwise subtraction of `Vector3.h`. -/
def sub (a b : Vector3 S) : Vector3 S := ⟨a.x - b.x, a.y - b.y, a.z - b.z⟩

/-- Modelled from the spec: multiplication by a scalar of `Vector3.h`. -/
def mul (a : Vector3 S) (s : S) : Vector3 S := ⟨a.x * s, a.y * s, a.z * s⟩

/-- Modelled from the spec: the magnitude of `Vector3.h`, with the square root
function as an argument. -/
def Length (sqrt : S → S) (a : Vector3 S) : S := sqrt (a.x * a.x + a.y * a.y + a.z * a.z)

/-- Modelled from the spec: `Normalized()` of `Vector3.h` divides by the magnitude. -/
def Normalized (sqrt : S → S) (a : Vector3 S) : Vector3 S :=
  ⟨a.x / Length sqrt a, a.y / Length sqrt a, a.z / Length sqrt a⟩

end Vector3

/-- Modelled from the spec: the operations of `Vector3.h` on `Vector3 S`, for a given
square root. -/
def vector3Ops {S : Type} [Add S] [Sub S] [Mul S] [Div S] [OfNat S 0] (sqrt : S → S) :
    VectorOps S (Vector3 S) where
  add := Vector3.add
  sub := Vector3.sub
  mul := Vector3.mul
  Normalized := Vector3.Normalized sqrt
  zero := ⟨0, 0, 0⟩

/-- Modelled from the spec: the distance `‖position − target_position‖` of the
convergence property, the magnitude of the difference of the two positions. -/
def distance {S : Type} [Add S] [Sub S] [Mul S] (sqrt : S → S)
    (target_position position : Vector3 S) : S :=
  Vector3.Length sqrt (Vector3.sub target_position position)

/-! ## Entities -/

/-- `struct Body`: a position and a velocity. -/
structure Body (V : Type) where
  position : V
  velocity : V
deriving DecidableEq

/-- `class Plane : public Body` adds no member. -/
abbrev Plane (V : Type) := Body V

/-- `Plane::Update`: `position += velocity * time`. -/
def Plane.Update {S V : Type} (ops : VectorOps S V) (time : S) (self : Plane V) : Plane V :=
  { self with position := ops.add self.position (ops.mul self.velocity time) }

/-- `static constexpr float speed = 12.8f`. -/
def speed {S : Type} [OfScientific S] : S := 12.8

/-- `constexpr float delta_time = 0.03f`. -/
def delta_time {S : Type} [OfScientific S] : S := 0.03

/-! ### Layout `DIRECT_VALUE`: the missile holds a copy of the target position -/

namespace DirectValue

/-- `class Missile : public Body` with the member `Vector target_position`. -/
structure Missile (V : Type) extends Body V where
  target_position : V
deriving DecidableEq

variable {S V : Type} [OfScientific S]

/-- `Missile::Update ( const float time )`. -/
def Missile.Update (ops : VectorOps S V) (write_at_end : Bool) (time : S)
    (self : Missile V) : Missile V :=
  let relative_position_to_target := ops.sub self.target_position self.position
  let direction_to_target := ops.Normalized relative_position_to_target
  if write_at_end then
    let velocity := ops.mul direction_to_target speed
    let self := { self with position := ops.add self.position (ops.mul velocity time) }
    { self with velocity := velocity }
  else
    let self := { self with velocity := ops.mul direction_to_target speed }
    { self with position := ops.add self.position (ops.mul self.velocity time) }

/-- `Missile::UpdateVelocity ( )`. -/
def Missile.UpdateVelocity (ops : VectorOps S V) (self : Missile V) : Missile V :=
  let relative_position_to_target := ops.sub self.target_position self.position
  let direction_to_target := ops.Normalized relative_position_to_target
  { self with velocity := ops.mul direction_to_target speed }

/-- `Missile::UpdatePosition ( const float time )`; both branches of `WRITE_AT_END`
store `position + velocity * time`. -/
def Missile.UpdatePosition (ops : VectorOps S V) (write_at_end : Bool) (time : S)
    (self : Missile V) : Missile V :=
  if write_at_end then
    { self with position := ops.add self.position (ops.mul self.velocity time) }
  else
    { self with position := ops.add self.position (ops.mul self.velocity time) }

/-- The loop of `main` calling `UpdateVelocity ( )` on every missile. -/
def velocity_loop (ops : VectorOps S V) : List (Missile V) → List (Missile V)
  | [] => []
  | missile :: rest => missile.UpdateVelocity ops :: velocity_loop ops rest

/-- The loop of `main` calling `UpdatePosition ( delta_time )` on every missile. -/
def position_loop (ops : VectorOps S V) (write_at_end : Bool) (time : S) :
    List (Missile V) → List (Missile V)
  | [] => []
  | missile :: rest =>
      missile.UpdatePosition ops write_at_end time :: position_loop ops write_at_end time rest

/-- The loop of `main` calling `Update ( delta_time )` on every missile. -/
def update_loop (ops : VectorOps S V) (write_at_end : Bool) (time : S) :
    List (Missile V) → List (Missile V)
  | [] => []
  | missile :: rest =>
      missile.Update ops write_at_end time :: update_loop ops write_at_end time rest

/-- One timed tick of `main`: the two loops under `TWO_LOOPS`, the single loop
otherwise. -/
def tick (ops : VectorOps S V) (two_loops write_at_end : Bool) (time : S)
    (missiles : List (Missile V)) : List (Missile V) :=
  if two_loops then
    position_loop ops write_at_end time (velocity_loop ops missiles)
  else
    update_loop ops write_at_end time missiles

end DirectValue

/-! ### Default layout: the missile holds a pointer to its target -/

namespace EmbeddedPointer

/-- `class Missile : public Body` with the member `const Body* target`. -/
structure Missile (V : Type) extends Body V where
  target : Nat
deriving DecidableEq

variable {S V : Type} [OfScientific S]

/-- `Missile::Update ( const float time )`, reading `target->position`. -/
def Missile.Update (ops : VectorOps S V) (write_at_end : Bool) (planes : List (Plane V))
    (time : S) (self : Missile V) : Option (Missile V) := do
  let target ← planes[self.target]?
  let target_position := target.position
  let relative_position_to_target := ops.sub target_position self.position
  let direction_to_target := ops.Normalized relative_position_to_target
  if write_at_end then
    let velocity := ops.mul direction_to_target speed
    let self := { self with position := ops.add self.position (ops.mul velocity time) }
    pure { self with velocity := velocity }
  else
    let self := { self with velocity := ops.mul direction_to_target speed }
    pure { self with position := ops.add self.position (ops.mul self.velocity time) }

/-- `Missile::UpdateVelocity ( )`, reading `target->position`. -/
def Missile.UpdateVelocity (ops : VectorOps S V) (planes : List (Plane V))
    (self : Missile V) : Option (Missile V) := do
  let target ← planes[self.target]?
  let target_position := target.position
  let relative_position_to_target := ops.sub target_position self.position
  let direction_to_target := ops.Normalized relative_position_to_target
  pure { self with velocity := ops.mul direction_to_target speed }

/-- `Missile::UpdatePosition ( const float time )`. -/
def Missile.UpdatePosition (ops : VectorOps S V) (write_at_end : Bool) (time : S)
    (self : Missile V) : Missile V :=
  if write_at_end then
    { self with position := ops.add self.position (ops.mul self.velocity time) }
  else
    { self with position := ops.add self.position (ops.mul self.velocity time) }

/-- The loop of `main` calling `UpdateVelocity ( )` on every missile. -/
def velocity_loop (ops : VectorOps S V) (planes : List (Plane V)) :
    List (Missile V) → Option (List (Missile V))
  | [] => some []
  | missile :: rest => do
      let missile ← missile.UpdateVelocity ops planes
      let rest ← velocity_loop ops planes rest
      pure (missile :: rest)

/-- The loop of `main` calling `UpdatePosition ( delta_time )` on every missile. -/
def position_loop (ops : VectorOps S V) (write_at_end : Bool) (time : S) :
    List (Missile V) → List (Missile V)
  | [] => []
  | missile :: rest =>
      missile.UpdatePosition ops write_at_end time :: position_loop ops write_at_end time rest

/-- The loop of `main` calling `Update ( delta_time )` on every missile. -/
def update_loop (ops : VectorOps S V) (write_at_end : Bool) (planes : List (Plane V))
    (time : S) : List (Missile V) → Option (List (Missile V))
  | [] => some []
  | missile :: rest => do
      let missile ← missile.Update ops write_at_end planes time
      let rest ← update_loop ops write_at_end planes time rest
      pure (missile :: rest)

/-- One timed tick of `main`: the two loops under `TWO_LOOPS`, the single loop
otherwise. -/
def tick (ops : VectorOps S V) (two_loops write_at_end : Bool) (planes : List (Plane V))
    (time : S) (missiles : List (Missile V)) : Option (List (Missile V)) :=
  if two_loops then do
    let missiles ← velocity_loop ops planes missiles
    pure (position_loop ops write_at_end time missiles)
  else
    update_loop ops write_at_end planes time missiles

end EmbeddedPointer

/-- The missile `self` points at a plane and lies at a distance from it that is positive
and below `speed * time`. -/
def EmbeddedPointer.Near (planes : List (Plane (Vector3 ℝ))) (time : ℝ)
    (self : EmbeddedPointer.Missile (Vector3 ℝ)) : Prop :=
  ∃ plane, planes[self.target]? = some plane ∧
    0 < distance Real.sqrt plane.position self.position ∧
    distance Real.sqrt plane.position self.position < speed * time

/-! ### Layout `SEPARATE_POINTER`: the target pointers live in the side vector `targets` -/

namespace SeparatePointer

/-- `class Missile : public Body` without any further member. -/
abbrev Missile (V : Type) := Body V

variable {S V : Type} [OfScientific S]

/-- `Missile::Update ( const float time, const Body*const target )`. -/
def Missile.Update (ops : VectorOps S V) (write_at_end : Bool) (planes : List (Plane V))
    (time : S) (target : Nat) (self : Missile V) : Option (Missile V) := do
  let target ← planes[target]?
  let target_position := target.position
  let relative_position_to_target := ops.sub target_position self.position
  let direction_to_target := ops.Normalized relative_position_to_target
  if write_at_end then
    let velocity := ops.mul direction_to_target speed
    let self := { self with position := ops.add self.position (ops.mul velocity time) }
    pure { self with velocity := velocity }
  else
    let self := { self with velocity := ops.mul direction_to_target speed }
    pure { self with position := ops.add self.position (ops.mul self.velocity time) }

/-- `Missile::UpdateVelocity ( const Body*const target )`. -/
def Missile.UpdateVelocity (ops : VectorOps S V) (planes : List (Plane V)) (target : Nat)
    (self : Missile V) : Option (Missile V) := do
  let target ← planes[target]?
  let target_position := target.position
  let relative_position_to_target := ops.sub target_position self.position
  let direction_to_target := ops.Normalized relative_position_to_target
  pure { self with velocity := ops.mul direction_to_target speed }

/-- `Missile::UpdatePosition ( const float time )`. -/
def Missile.UpdatePosition (ops : VectorOps S V) (write_at_end : Bool) (time : S)
    (self : Missile V) : Missile V :=
  if write_at_end then
    { self with position := ops.add self.position (ops.mul self.velocity time) }
  else
    { self with position := ops.add self.position (ops.mul self.velocity time) }

/-- The creation loop of `main` under `SEPARATE_POINTER`: every drawn pair of a position
and a `target_id` appends `&planes [ target_id ]` to `targets` and a missile at that
position, with velocity `Vector { }`, to `missiles`. -/
def create (ops : VectorOps S V) : List (V × Nat) → List (Missile V) × List Nat
  | [] => ([], [])
  | (position, target_id) :: rest =>
      (⟨position, ops.zero⟩ :: (create ops rest).1, target_id :: (create ops rest).2)

/-- The loop `for ( ...; missile_it != end; ++missile_it, ++target_it )` of `main`,
calling `UpdateVelocity ( *target_it )`; `target_it` is the position of the iterator in
`targets`. -/
def velocity_loop (ops : VectorOps S V) (planes : List (Plane V)) (targets : List Nat) :
    Nat → List (Missile V) → Option (List (Missile V))
  | _, [] => some []
  | target_it, missile :: rest => do
      let target ← targets[target_it]?
      let missile ← Missile.UpdateVelocity ops planes target missile
      let rest ← velocity_loop ops planes targets (target_it + 1) rest
      pure (missile :: rest)

/-- The loop of `main` calling `UpdatePosition ( delta_time )` on every missile. -/
def position_loop (ops : VectorOps S V) (write_at_end : Bool) (time : S) :
    List (Missile V) → List (Missile V)
  | [] => []
  | missile :: rest =>
      Missile.UpdatePosition ops write_at_end time missile ::
        position_loop ops write_at_end time rest

/-- The loop `for ( ...; missile_it != end; ++missile_it )` of `main`, calling
`Update ( delta_time, *target_it )`: only `missile_it` is advanced. -/
def update_loop (ops : VectorOps S V) (write_at_end : Bool) (planes : List (Plane V))
    (targets : List Nat) (time : S) : Nat → List (Missile V) → Option (List (Missile V))
  | _, [] => some []
  | target_it, missile :: rest => do
      let target ← targets[target_it]?
      let missile ← Missile.Update ops write_at_end planes time target missile
      let rest ← update_loop ops write_at_end planes targets time target_it rest
      pure (missile :: rest)

/-- One timed tick of `main`, starting from `target_it = targets.begin ( )`: the two
loops under `TWO_LOOPS`, the single loop otherwise. -/
def tick (ops : VectorOps S V) (two_loops write_at_end : Bool) (planes : List (Plane V))
    (targets : List Nat) (time : S) (missiles : List (Missile V)) :
    Option (List (Missile V)) :=
  let target_it := 0
  if two_loops then do
    let missiles ← velocity_loop ops planes targets target_it missiles
    pure (position_loop ops write_at_end time missiles)
  else
    update_loop ops write_at_end planes targets time target_it missiles

end SeparatePointer

/-! ## Timing loop and statistics -/

/-- The timing loop of `main`: one tick per data point; the measured duration of each
repetition, in nanoseconds, is an input (`durations`, one per data point). -/
def timing_loop {P : Type} (tick : P → Option P) : P → List Int → Option (P × List Int)
  | missiles, [] => some (missiles, [])
  | missiles, duration :: rest => do
      let missiles ← tick missiles
      let (missiles, data_points) ← timing_loop tick missiles rest
      pure (missiles, duration :: data_points)

/-- Conversion of a `long long` to `unsigned long long`. -/
def toU64 (x : Int) : Nat := (x % 2 ^ 64).toNat

/-- `std::sort ( data_points.begin ( ), data_points.end ( ) )`: ascending order. -/
def sort (data_points : List Int) : List Int :=
  data_points.insertionSort (fun a b => a ≤ b)

/-- `data_points.front ( )`. -/
def front (data_points : List Int) : Option Int := data_points.head?

/-- `data_points.back ( )`. -/
def back (data_points : List Int) : Option Int := data_points.getLast?

/-- `data_points [ ( data_points.size ( ) + 1 ) / 2 ]`. -/
def median_of (data_points : List Int) : Option Int :=
  data_points[(data_points.length + 1) / 2]?

/-- `std::accumulate ( data_points.begin ( ), data_points.end ( ), 0ull )`. -/
def sum_of (data_points : List Int) : Nat :=
  data_points.foldl (fun total add => (total + toU64 add) % 2 ^ 64) 0

/-- `sum / data_points.size ( )`. -/
def mean_of (data_points : List Int) : Option Nat :=
  if data_points.length = 0 then none else some (sum_of data_points / data_points.length)

/-- The `std::accumulate` under the square root: starting from `0ull`, each step adds
`difference * difference` with `difference = add - mean` in `unsigned long long`. -/
def squares_of (mean : Nat) (data_points : List Int) : Nat :=
  data_points.foldl
    (fun total add =>
      let difference := (toU64 add + 2 ^ 64 - mean) % 2 ^ 64
      (total + difference * difference % 2 ^ 64) % 2 ^ 64) 0

/-- The operations on `double` that the standard deviation uses, over a type `D` standing
for `double`: `static_cast < double >` of an `unsigned long long`, the conversion of the
`size_t` divisor, the division and `std::sqrt`. -/
structure DoubleOps (D : Type) where
  ofU64 : Nat → D
  ofSize : Nat → D
  div : D → D → D
  sqrt : D → D

/-- `standard_deviation`: `std::sqrt` of the accumulated squares, converted to `double`,
divided by `data_points.size ( )`. -/
def standard_deviation_of {D : Type} (ops : DoubleOps D) (mean : Nat)
    (data_points : List Int) : D :=
  ops.sqrt (ops.div (ops.ofU64 (squares_of mean data_points)) (ops.ofSize data_points.length))

/-- The five values `main` prints. `standard_deviation` is
`std::sqrt ( static_cast < double > ( squares ) / count )`, see `standard_deviation_of`;
its two integer operands are kept here. -/
structure Statistics where
  lowest : Int
  highest : Int
  median : Int
  mean : Nat
  squares : Nat
  count : Nat
deriving DecidableEq

/-- The statistics part of `main`, from `std::sort` to `standard_deviation`. -/
def statistics (data_points : List Int) : Option Statistics := do
  let data_points := sort data_points
  let lowest ← front data_points
  let highest ← back data_points
  let median ← median_of data_points
  let mean ← mean_of data_points
  let squares := squares_of mean data_points
  pure ⟨lowest, highest, median, mean, squares, data_points.length⟩

theorem toU64_cast (x : Int) : (toU64 x : Int) = x % 2 ^ 64 := by
  unfold toU64
  exact Int.toNat_of_nonneg (Int.emod_nonneg _ (by norm_num))

theorem toU64_lt (x : Int) : toU64 x < 2 ^ 64 := by
  have h := toU64_cast x
  have h2 : x % 2 ^ 64 < 2 ^ 64 := Int.emod_lt_of_pos _ (by norm_num)
  omega

theorem toU64_of_nonneg (x : Int) (h0 : 0 ≤ x) (h1 : x < 2 ^ 64) : toU64 x = x.toNat := by
  have h := toU64_cast x
  rw [Int.emod_eq_of_lt h0 h1] at h
  omega

theorem sort_perm (samples : List Int) : (sort samples).Perm samples :=
  List.perm_insertionSort _ samples

theorem sort_sorted (samples : List Int) : (sort samples).Sorted (fun a b => a ≤ b) :=
  List.sorted_insertionSort _ samples

theorem sort_length (samples : List Int) : (sort samples).length = samples.length :=
  (sort_perm samples).length_eq

theorem sort_ne_nil (samples : List Int) (h : samples ≠ []) : sort samples ≠ [] := by
  intro h0
  have := sort_length samples
  rw [h0] at this
  exact h (List.length_eq_zero.mp this.symm)

theorem foldl_sum (data_points : List Int) :
    ∀ total : Nat, total < 2 ^ 64 →
      data_points.foldl (fun total add => (total + toU64 add) % 2 ^ 64) total
        = (total + (data_points.map toU64).sum) % 2 ^ 64 := by
  induction data_points with
  | nil => intro total h; simp only [List.foldl_nil, List.map_nil, List.sum_nil]; omega
  | cons x rest ih =>
    intro total _
    simp only [List.foldl_cons, List.map_cons, List.sum_cons]
    rw [ih _ (Nat.mod_lt _ (by norm_num))]
    omega

theorem sum_of_eq (data_points : List Int) :
    sum_of data_points = (data_points.map toU64).sum % 2 ^ 64 := by
  unfold sum_of
  rw [foldl_sum data_points 0 (by norm_num)]
  simp

theorem sum_of_lt (data_points : List Int) : sum_of data_points < 2 ^ 64 := by
  rw [sum_of_eq]
  exact Nat.mod_lt _ (by norm_num)

theorem sum_toU64_cast (samples : List Int) (h : ∀ x ∈ samples, 0 ≤ x ∧ x < 2 ^ 64) :
    (((samples.map toU64).sum : Nat) : Int) = samples.sum := by
  induction samples with
  | nil => simp
  | cons x rest ih =>
    have hx := h x (List.mem_cons_self _ _)
    have hrest := ih (fun y hy => h y (List.mem_cons_of_mem _ hy))
    simp only [List.map_cons, List.sum_cons, Nat.cast_add, hrest, toU64_cast]
    rw [Int.emod_eq_of_lt hx.1 hx.2]

theorem sum_toU64_of_nonneg (samples : List Int) (h0 : ∀ x ∈ samples, 0 ≤ x)
    (hsum : samples.sum < 2 ^ 64) : (((samples.map toU64).sum : Nat) : Int) = samples.sum :=
  sum_toU64_cast samples
    (fun x hx => ⟨h0 x hx, lt_of_le_of_lt (List.single_le_sum h0 x hx) hsum⟩)

theorem sum_of_sort (samples : List Int) : sum_of (sort samples) = sum_of samples := by
  rw [sum_of_eq, sum_of_eq, ((sort_perm samples).map toU64).sum_eq]

theorem sum_of_exact (samples : List Int) (h0 : ∀ x ∈ samples, 0 ≤ x)
    (hsum : samples.sum < 2 ^ 64) : ((sum_of (sort samples) : Nat) : Int) = samples.sum := by
  have h := sum_toU64_of_nonneg samples h0 hsum
  rw [sum_of_sort, sum_of_eq]
  have hlt : (samples.map toU64).sum < 2 ^ 64 := by
    have : (((samples.map toU64).sum : Nat) : Int) < 2 ^ 64 := by rw [h]; exact hsum
    exact_mod_cast this
  rw [Nat.mod_eq_of_lt hlt, h]

theorem mean_of_sort (samples : List Int) (hne : samples ≠ []) :
    mean_of (sort samples) = some (sum_of (sort samples) / samples.length) := by
  unfold mean_of
  rw [sort_length]
  have : samples.length ≠ 0 := fun h => hne (List.length_eq_zero.mp h)
  simp [this]

theorem mean_of_lt (data_points : List Int) (m : Nat) (h : mean_of data_points = some m) :
    m < 2 ^ 64 := by
  unfold mean_of at h
  split at h
  · simp at h
  · simp only [Option.some.injEq] at h
    rw [← h]
    exact lt_of_le_of_lt (Nat.div_le_self _ _) (sum_of_lt _)

theorem difference_modEq (mean : Nat) (hm : mean < 2 ^ 64) (x : Int) :
    ((((toU64 x + 2 ^ 64 - mean) % 2 ^ 64 : Nat)) : Int) ≡ x - (mean : Int) [ZMOD 2 ^ 64] := by
  have hle : mean ≤ toU64 x + 2 ^ 64 := by omega
  have hcast : (((toU64 x + 2 ^ 64 - mean : Nat)) : Int) = x % 2 ^ 64 + 2 ^ 64 - mean := by
    rw [Nat.cast_sub hle, Nat.cast_add, toU64_cast]
    norm_num
  rw [Int.natCast_mod, hcast]
  have hpow : ((2 ^ 64 : Nat) : Int) = 2 ^ 64 := by norm_num
  rw [hpow]
  refine (Int.mod_modEq _ _).trans ?_
  have h1 : x % 2 ^ 64 ≡ x [ZMOD 2 ^ 64] := Int.mod_modEq _ _
  have h2 : (2 ^ 64 : Int) ≡ 0 [ZMOD 2 ^ 64] := by simp [Int.ModEq]
  simpa using (h1.add h2).sub (Int.ModEq.refl (mean : Int))

theorem foldl_squares (mean : Nat) (hm : mean < 2 ^ 64) (data_points : List Int) :
    ∀ total : Nat, total < 2 ^ 64 →
      ((data_points.foldl
        (fun total add =>
          let difference := (toU64 add + 2 ^ 64 - mean) % 2 ^ 64
          (total + difference * difference % 2 ^ 64) % 2 ^ 64) total : Nat) : Int)
        = ((total : Int) + (data_points.map (fun x => (x - (mean : Int)) ^ 2)).sum) % 2 ^ 64 := by
  induction data_points with
  | nil =>
    intro total h
    simp only [List.foldl_nil, List.map_nil, List.sum_nil, add_zero]
    omega
  | cons x rest ih =>
    intro total _
    simp only [List.foldl_cons, List.map_cons, List.sum_cons]
    rw [ih _ (Nat.mod_lt _ (by norm_num))]
    have hd := difference_modEq mean hm x
    show _ ≡ _ [ZMOD 2 ^ 64]
    rw [← add_assoc]
    refine Int.ModEq.add ?_ (Int.ModEq.refl _)
    push_cast
    refine (Int.mod_modEq _ _).trans ?_
    refine Int.ModEq.add (Int.ModEq.refl _) ?_
    refine (Int.mod_modEq _ _).trans ?_
    rw [pow_two]
    have hd2 := hd.mul hd
    push_cast at hd2
    exact hd2

theorem squares_of_cast (mean : Nat) (hm : mean < 2 ^ 64) (data_points : List Int) :
    ((squares_of mean data_points : Nat) : Int)
      = (data_points.map (fun x => (x - (mean : Int)) ^ 2)).sum % 2 ^ 64 := by
  unfold squares_of
  rw [foldl_squares mean hm data_points 0 (by norm_num)]
  simp

theorem squares_of_sort (mean : Nat) (hm : mean < 2 ^ 64) (samples : List Int) :
    squares_of mean (sort samples) = squares_of mean samples := by
  have h1 := squares_of_cast mean hm (sort samples)
  have h2 := squares_of_cast mean hm samples
  rw [((sort_perm samples).map _).sum_eq, ← h2] at h1
  exact_mod_cast h1

theorem squares_nonneg (mean : Int) (samples : List Int) :
    0 ≤ (samples.map (fun x => (x - mean) ^ 2)).sum :=
  List.sum_nonneg (by
    intro y hy
    obtain ⟨x, _, rfl⟩ := List.mem_map.mp hy
    positivity)

theorem sorted_head_le (l : List Int) (hs : l.Sorted (fun a b => a ≤ b)) (a : Int)
    (ha : l.head? = some a) : ∀ x ∈ l, a ≤ x := by
  cases l with
  | nil => simp at ha
  | cons b rest =>
    simp only [List.head?_cons, Option.some.injEq] at ha
    subst ha
    intro x hx
    rcases List.mem_cons.mp hx with rfl | hx
    · exact le_refl _
    · exact List.rel_of_sorted_cons hs x hx

theorem sorted_le_getLast (l : List Int) (hs : l.Sorted (fun a b => a ≤ b)) (b : Int)
    (hb : l.getLast? = some b) : ∀ x ∈ l, x ≤ b := by
  obtain ⟨init, rfl⟩ := List.getLast?_eq_some_iff.mp hb
  intro x hx
  rcases List.mem_append.mp hx with hx | hx
  · exact (List.pairwise_append.mp hs).2.2 x hx b (List.mem_singleton_self b)
  · rw [List.mem_singleton.mp hx]

theorem statistics_eq_some (samples : List Int) (s : Statistics)
    (h : statistics samples = some s) :
    front (sort samples) = some s.lowest ∧ back (sort samples) = some s.highest ∧
      median_of (sort samples) = some s.median ∧ mean_of (sort samples) = some s.mean ∧
      s.squares = squares_of s.mean (sort samples) ∧ s.count = (sort samples).length := by
  unfold statistics at h
  simp only [Option.bind_eq_bind, Option.pure_def, Option.bind_eq_some] at h
  obtain ⟨lo, hlo, hi, hhi, med, hmed, m, hm, hs⟩ := h
  simp only [Option.some.injEq] at hs
  subst hs
  exact ⟨hlo, hhi, hmed, hm, rfl, rfl⟩

theorem median_of_isSome (data_points : List Int) :
    (median_of data_points).isSome = true ↔ 2 ≤ data_points.length := by
  unfold median_of
  rw [Option.isSome_iff_exists]
  constructor
  · rintro ⟨a, ha⟩
    have := (List.getElem?_eq_some.mp ha).1
    omega
  · intro h
    have hlt : (data_points.length + 1) / 2 < data_points.length := by omega
    exact ⟨_, List.getElem?_eq_getElem hlt⟩

theorem statistics_isSome (samples : List Int) :
    (statistics samples).isSome = true ↔ 2 ≤ samples.length := by
  constructor
  · intro h
    obtain ⟨s, hs⟩ := Option.isSome_iff_exists.mp h
    have hmed := (statistics_eq_some samples s hs).2.2.1
    have := (median_of_isSome (sort samples)).mp (by rw [hmed]; rfl)
    rwa [sort_length] at this
  · intro h
    have hne : samples ≠ [] := by
      intro h0
      rw [h0] at h
      simp at h
    have hsne := sort_ne_nil samples hne
    have hmed := (median_of_isSome (sort samples)).mpr (by rw [sort_length]; exact h)
    obtain ⟨med, hmed⟩ := Option.isSome_iff_exists.mp hmed
    unfold statistics
    simp only [Option.bind_eq_bind, Option.pure_def]
    rw [show front (sort samples) = some ((sort samples).head hsne) from List.head?_eq_head hsne,
      show back (sort samples) = some ((sort samples).getLast hsne) from
        List.getLast?_eq_getLast _ hsne,
      hmed, mean_of_sort samples hne]
    rfl

/-- The subscript of the median: for an even number `2 * k` of samples it is `k`, the
1-based position `k + 1 = ⌈(2 * k + 1) / 2⌉`; for an odd number `2 * k + 1` of samples it is
`k + 1`, the 1-based position `k + 2`, one past `⌈(2 * k + 2) / 2⌉ = k + 1`. -/
theorem median_of_subscript (samples : List Int) (k : Nat) :
    (samples.length = 2 * k → median_of (sort samples) = (sort samples)[k]?) ∧
      (samples.length = 2 * k + 1 → median_of (sort samples) = (sort samples)[k + 1]?) := by
  unfold median_of
  rw [sort_length]
  constructor
  · intro h
    rw [h]
    congr 1
    omega
  · intro h
    rw [h]
    congr 1
    omega

/-- For a single non-negative 64-bit sample `x`, the mean is `x` and the sum of squared
differences is 0. -/
theorem single_sample_mean (x : Int) (h0 : 0 ≤ x) (h1 : x < 2 ^ 63) :
    mean_of (sort [x]) = some x.toNat ∧ squares_of x.toNat (sort [x]) = 0 := by
  have hsort : sort [x] = [x] := rfl
  have hx : toU64 x = x.toNat := toU64_of_nonneg x h0 (by omega)
  have hlt : x.toNat < 2 ^ 64 := by omega
  rw [hsort]
  constructor
  · simp only [mean_of, List.length_singleton, one_ne_zero, if_false, sum_of, List.foldl_cons,
      List.foldl_nil, Nat.div_one, zero_add, hx, Nat.mod_eq_of_lt hlt]
  · simp only [squares_of, List.foldl_cons, List.foldl_nil, hx, zero_add]
    have : (x.toNat + 2 ^ 64 - x.toNat) % 2 ^ 64 = 0 := by
      rw [Nat.add_sub_cancel_left]
      exact Nat.mod_self _
    simp [this]

/-- With `m` the mean the code computes, whatever the sum of the samples, the accumulator
handed to the square root equals the exact `Σ (x − m)²` whenever that sum is below
`2 ^ 64`; `m` is `⌊Σ x / N⌋` when the samples sum to less than `2 ^ 64`. -/
theorem squares_of_wrapped_mean (samples : List Int) (hne : samples ≠ [])
    (hrange : ∀ x ∈ samples, 0 ≤ x ∧ x < 2 ^ 63) :
    ∃ m : Nat, mean_of (sort samples) = some m ∧
      m = sum_of (sort samples) / samples.length ∧
      (samples.sum < 2 ^ 64 → (m : Int) = samples.sum / (samples.length : Int)) ∧
      ((samples.map (fun x => (x - (m : Int)) ^ 2)).sum < 2 ^ 64 →
        ((squares_of m (sort samples) : Nat) : Int)
          = (samples.map (fun x => (x - (m : Int)) ^ 2)).sum) ∧
      ∀ s, statistics samples = some s →
        s.mean = m ∧ s.squares = squares_of m (sort samples) ∧ s.count = samples.length := by
  have hmean := mean_of_sort samples hne
  have hm := mean_of_lt _ _ hmean
  refine ⟨_, hmean, rfl, ?_, ?_, ?_⟩
  · intro hsum
    have h := sum_of_exact samples (fun x hx => (hrange x hx).1) hsum
    rw [← h]
    norm_cast
  · intro hsq
    rw [squares_of_sort _ hm, squares_of_cast _ hm]
    exact Int.emod_eq_of_lt (squares_nonneg _ samples) hsq
  · intro s hs
    obtain ⟨_, _, _, h4, h5, h6⟩ := statistics_eq_some samples s hs
    rw [hmean] at h4
    have h4 := (Option.some.inj h4).symm
    rw [h4] at h5
    exact ⟨h4, h5, by rw [h6, sort_length]⟩

/-! ## Lemmas on the tick loops -/

section ticks

variable {S V : Type} [OfScientific S]

theorem direct_Update_split (ops : VectorOps S V) (write_at_end : Bool) (time : S)
    (missile : DirectValue.Missile V) :
    missile.Update ops write_at_end time
      = (missile.UpdateVelocity ops).UpdatePosition ops write_at_end time := by
  cases write_at_end <;> rfl

theorem direct_update_loop_split (ops : VectorOps S V) (write_at_end : Bool) (time : S)
    (missiles : List (DirectValue.Missile V)) :
    DirectValue.update_loop ops write_at_end time missiles
      = DirectValue.position_loop ops write_at_end time
          (DirectValue.velocity_loop ops missiles) := by
  induction missiles with
  | nil => rfl
  | cons missile rest ih =>
    simp only [DirectValue.update_loop, DirectValue.velocity_loop, DirectValue.position_loop,
      ih, direct_Update_split]

theorem embedded_Update_split (ops : VectorOps S V) (write_at_end : Bool)
    (planes : List (Plane V)) (time : S) (missile : EmbeddedPointer.Missile V) :
    missile.Update ops write_at_end planes time
      = (missile.UpdateVelocity ops planes).map
          (EmbeddedPointer.Missile.UpdatePosition ops write_at_end time) := by
  unfold EmbeddedPointer.Missile.Update EmbeddedPointer.Missile.UpdateVelocity
  cases planes[missile.target]? <;> cases write_at_end <;> rfl

theorem embedded_update_loop_split (ops : VectorOps S V) (write_at_end : Bool)
    (planes : List (Plane V)) (time : S) (missiles : List (EmbeddedPointer.Missile V)) :
    EmbeddedPointer.update_loop ops write_at_end planes time missiles
      = (EmbeddedPointer.velocity_loop ops planes missiles).map
          (EmbeddedPointer.position_loop ops write_at_end time) := by
  induction missiles with
  | nil => rfl
  | cons missile rest ih =>
    simp only [EmbeddedPointer.update_loop, EmbeddedPointer.velocity_loop, ih,
      embedded_Update_split]
    cases missile.UpdateVelocity ops planes <;>
      cases EmbeddedPointer.velocity_loop ops planes rest <;> rfl

theorem separate_Update_split (ops : VectorOps S V) (write_at_end : Bool)
    (planes : List (Plane V)) (time : S) (target : Nat) (missile : SeparatePointer.Missile V) :
    SeparatePointer.Missile.Update ops write_at_end planes time target missile
      = (SeparatePointer.Missile.UpdateVelocity ops planes target missile).map
          (SeparatePointer.Missile.UpdatePosition ops write_at_end time) := by
  unfold SeparatePointer.Missile.Update SeparatePointer.Missile.UpdateVelocity
  cases planes[target]? <;> cases write_at_end <;> rfl

end ticks

theorem separate_create_length {S V : Type} (ops : VectorOps S V)
    (draws : List (V × Nat)) :
    (SeparatePointer.create ops draws).1.length = draws.length ∧
      (SeparatePointer.create ops draws).2.length = draws.length := by
  induction draws with
  | nil => exact ⟨rfl, rfl⟩
  | cons draw rest ih =>
    obtain ⟨position, target_id⟩ := draw
    simp only [SeparatePointer.create, List.length_cons, ih.1, ih.2, and_self]

theorem rat_sqrt_hundred : Rat.sqrt 100 = 10 := by
  rw [show (100 : ℚ) = 10 * 10 by norm_num, Rat.sqrt_eq]
  norm_num

/-! ## Lemmas over the real numbers -/

theorem distance_after_step (target_position position : Vector3 ℝ) (time : ℝ)
    (hd : distance Real.sqrt target_position position ≠ 0) :
    distance Real.sqrt target_position
        (Vector3.add position
          (Vector3.mul
            (Vector3.mul (Vector3.Normalized Real.sqrt (Vector3.sub target_position position))
              speed) time))
      = |distance Real.sqrt target_position position - speed * time| := by
  obtain ⟨tx, ty, tz⟩ := target_position
  obtain ⟨px, py, pz⟩ := position
  simp only [distance, Vector3.Length, Vector3.sub, Vector3.add, Vector3.mul,
    Vector3.Normalized, speed] at hd ⊢
  set L := Real.sqrt ((tx - px) * (tx - px) + (ty - py) * (ty - py) + (tz - pz) * (tz - pz))
    with hL
  have hnn : 0 ≤ (tx - px) * (tx - px) + (ty - py) * (ty - py) + (tz - pz) * (tz - pz) := by
    nlinarith [mul_self_nonneg (tx - px), mul_self_nonneg (ty - py), mul_self_nonneg (tz - pz)]
  have hLL : L * L = (tx - px) * (tx - px) + (ty - py) * (ty - py) + (tz - pz) * (tz - pz) :=
    Real.mul_self_sqrt hnn
  have hx : ∀ a p : ℝ, a - (p + (a - p) / L * 12.8 * time) = (a - p) * ((L - 12.8 * time) / L) := by
    intro a p
    field_simp
    ring
  rw [hx, hx, hx]
  have hrad : (tx - px) * ((L - 12.8 * time) / L) * ((tx - px) * ((L - 12.8 * time) / L))
      + (ty - py) * ((L - 12.8 * time) / L) * ((ty - py) * ((L - 12.8 * time) / L))
      + (tz - pz) * ((L - 12.8 * time) / L) * ((tz - pz) * ((L - 12.8 * time) / L))
      = (L - 12.8 * time) ^ 2 := by
    have : (tx - px) * ((L - 12.8 * time) / L) * ((tx - px) * ((L - 12.8 * time) / L))
      + (ty - py) * ((L - 12.8 * time) / L) * ((ty - py) * ((L - 12.8 * time) / L))
      + (tz - pz) * ((L - 12.8 * time) / L) * ((tz - pz) * ((L - 12.8 * time) / L))
      = ((tx - px) * (tx - px) + (ty - py) * (ty - py) + (tz - pz) * (tz - pz))
          * ((L - 12.8 * time) / L) ^ 2 := by ring
    rw [this, ← hLL]
    field_simp
    ring
  rw [hrad, Real.sqrt_sq_eq_abs]

theorem speed_real : (speed : ℝ) = 12.8 := rfl

theorem speed_pos : (0 : ℝ) < speed := by
  rw [speed_real]
  norm_num

theorem distance_nonneg (target_position position : Vector3 ℝ) :
    0 ≤ distance Real.sqrt target_position position :=
  Real.sqrt_nonneg _

theorem distance_decreases (d time : ℝ) (htime : 0 < time) (hd : speed * time ≤ d) :
    |d - speed * time| < d := by
  have h := mul_pos speed_pos htime
  rw [abs_of_nonneg (by linarith)]
  linarith

theorem distance_stays_below (d time : ℝ) (hd0 : 0 < d) (hd : d < speed * time) :
    0 < |d - speed * time| ∧ |d - speed * time| < speed * time := by
  rw [abs_of_neg (by linarith)]
  constructor <;> linarith

theorem embedded_Update_some {S V : Type} [OfScientific S] (ops : VectorOps S V)
    (write_at_end : Bool) (planes : List (Plane V)) (time : S)
    (missile : EmbeddedPointer.Missile V) (plane : Plane V)
    (h : planes[missile.target]? = some plane) :
    missile.Update ops write_at_end planes time
      = some ⟨⟨ops.add missile.position
            (ops.mul (ops.mul (ops.Normalized (ops.sub plane.position missile.position)) speed)
              time),
          ops.mul (ops.Normalized (ops.sub plane.position missile.position)) speed⟩,
        missile.target⟩ := by
  unfold EmbeddedPointer.Missile.Update
  rw [h]
  cases write_at_end <;> rfl

theorem separate_Update_some {S V : Type} [OfScientific S] (ops : VectorOps S V)
    (write_at_end : Bool) (planes : List (Plane V)) (time : S) (target : Nat)
    (missile : SeparatePointer.Missile V) (plane : Plane V)
    (h : planes[target]? = some plane) :
    SeparatePointer.Missile.Update ops write_at_end planes time target missile
      = some ⟨ops.add missile.position
            (ops.mul (ops.mul (ops.Normalized (ops.sub plane.position missile.position)) speed)
              time),
          ops.mul (ops.Normalized (ops.sub plane.position missile.position)) speed⟩ := by
  unfold SeparatePointer.Missile.Update
  rw [h]
  cases write_at_end <;> rfl

/-- Over the real numbers, with the embedded pointer: one `Update` of a missile whose
target is valid and at a non-zero distance `d` leaves it at distance `|d − speed * time|`
from the same target, for both write orderings; the same holds for `UpdateVelocity`
followed by `UpdatePosition`, which is the same function. -/
theorem embedded_Update_distance (write_at_end : Bool)
    (planes : List (Plane (Vector3 ℝ))) (time : ℝ)
    (missile : EmbeddedPointer.Missile (Vector3 ℝ)) (plane : Plane (Vector3 ℝ))
    (h : planes[missile.target]? = some plane)
    (hd : distance Real.sqrt plane.position missile.position ≠ 0) :
    ∃ updated, missile.Update (vector3Ops Real.sqrt) write_at_end planes time = some updated ∧
      updated.target = missile.target ∧
      distance Real.sqrt plane.position updated.position
        = |distance Real.sqrt plane.position missile.position - speed * time| :=
  ⟨_, embedded_Update_some _ write_at_end planes time missile plane h, rfl,
    distance_after_step plane.position missile.position time hd⟩

/-- Over the real numbers, with the target handed in as an argument: one `Update` of a
missile against a valid target at a non-zero distance `d` leaves it at distance
`|d − speed * time|` from that target. -/
theorem separate_Update_distance (write_at_end : Bool)
    (planes : List (Plane (Vector3 ℝ))) (time : ℝ) (target : Nat)
    (missile : SeparatePointer.Missile (Vector3 ℝ)) (plane : Plane (Vector3 ℝ))
    (h : planes[target]? = some plane)
    (hd : distance Real.sqrt plane.position missile.position ≠ 0) :
    ∃ updated, SeparatePointer.Missile.Update (vector3Ops Real.sqrt) write_at_end planes time
        target missile = some updated ∧
      distance Real.sqrt plane.position updated.position
        = |distance Real.sqrt plane.position missile.position - speed * time| :=
  ⟨_, separate_Update_some _ write_at_end planes time target missile plane h,
    distance_after_step plane.position missile.position time hd⟩

theorem embedded_Update_near (write_at_end : Bool)
    (planes : List (Plane (Vector3 ℝ))) (time : ℝ)
    (missile : EmbeddedPointer.Missile (Vector3 ℝ))
    (h : EmbeddedPointer.Near planes time missile) :
    ∃ updated, missile.Update (vector3Ops Real.sqrt) write_at_end planes time = some updated ∧
      EmbeddedPointer.Near planes time updated := by
  obtain ⟨plane, hplane, h0, h1⟩ := h
  obtain ⟨updated, hup, htarget, hdist⟩ :=
    embedded_Update_distance write_at_end planes time missile plane hplane (ne_of_gt h0)
  refine ⟨updated, hup, plane, by rw [htarget]; exact hplane, ?_⟩
  rw [hdist]
  exact distance_stays_below _ _ h0 h1

theorem embedded_update_loop_near (write_at_end : Bool)
    (planes : List (Plane (Vector3 ℝ))) (time : ℝ)
    (missiles : List (EmbeddedPointer.Missile (Vector3 ℝ)))
    (h : ∀ missile ∈ missiles, EmbeddedPointer.Near planes time missile) :
    ∃ updated, EmbeddedPointer.update_loop (vector3Ops Real.sqrt) write_at_end planes time
        missiles = some updated ∧
      ∀ missile ∈ updated, EmbeddedPointer.Near planes time missile := by
  induction missiles with
  | nil => exact ⟨[], rfl, by simp⟩
  | cons missile rest ih =>
    obtain ⟨first, hfirst, hnear⟩ := embedded_Update_near write_at_end planes time
      missile (h missile (List.mem_cons_self _ _))
    obtain ⟨others, hothers, hnears⟩ := ih (fun m hm => h m (List.mem_cons_of_mem _ hm))
    refine ⟨first :: others, by simp [EmbeddedPointer.update_loop, hfirst, hothers], ?_⟩
    intro m hm
    rcases List.mem_cons.mp hm with rfl | hm
    · exact hnear
    · exact hnears m hm

theorem embedded_tick_eq_update_loop {S V : Type} [OfScientific S] (ops : VectorOps S V)
    (two_loops write_at_end : Bool) (planes : List (Plane V)) (time : S)
    (missiles : List (EmbeddedPointer.Missile V)) :
    EmbeddedPointer.tick ops two_loops write_at_end planes time missiles
      = EmbeddedPointer.update_loop ops write_at_end planes time missiles := by
  cases two_loops
  · rfl
  · simp only [EmbeddedPointer.tick, embedded_update_loop_split, if_true]
    cases EmbeddedPointer.velocity_loop ops planes missiles <;> rfl

/-- Over the real numbers, with the embedded pointer and planes that do not move: when
every missile is at a positive distance below `speed * time` from its target, this remains
so after any number of timed ticks, under both loop strategies and write orderings. -/
theorem embedded_timing_loop_near (two_loops write_at_end : Bool)
    (planes : List (Plane (Vector3 ℝ))) (time : ℝ) (durations : List Int) :
    ∀ missiles : List (EmbeddedPointer.Missile (Vector3 ℝ)),
      (∀ missile ∈ missiles, EmbeddedPointer.Near planes time missile) →
      ∃ updated, timing_loop
          (EmbeddedPointer.tick (vector3Ops Real.sqrt) two_loops write_at_end planes time)
          missiles durations = some (updated, durations) ∧
        ∀ missile ∈ updated, EmbeddedPointer.Near planes time missile := by
  induction durations with
  | nil => intro missiles h; exact ⟨missiles, rfl, h⟩
  | cons duration rest ih =>
    intro missiles h
    obtain ⟨once, honce, hnear⟩ :=
      embedded_update_loop_near write_at_end planes time missiles h
    obtain ⟨updated, hupdated, hnears⟩ := ih once hnear
    refine ⟨updated, ?_, hnears⟩
    simp [timing_loop, embedded_tick_eq_update_loop, honce, hupdated]

theorem separate_velocity_loop_lockstep {S V : Type} [OfScientific S]
    (ops : VectorOps S V) (planes : List (Plane V)) (targets : List Nat) :
    ∀ (missiles : List (SeparatePointer.Missile V)) (target_it : Nat)
      (updated : List (SeparatePointer.Missile V)),
      SeparatePointer.velocity_loop ops planes targets target_it missiles = some updated →
      updated.length = missiles.length ∧
      ∀ i, i < missiles.length → ∃ target missile,
        targets[target_it + i]? = some target ∧ missiles[i]? = some missile ∧
        updated[i]? = SeparatePointer.Missile.UpdateVelocity ops planes target missile := by
  intro missiles
  induction missiles with
  | nil =>
    intro target_it updated h
    simp only [SeparatePointer.velocity_loop, Option.some.injEq] at h
    subst h
    exact ⟨rfl, fun i hi => absurd hi (Nat.not_lt_zero i)⟩
  | cons missile rest ih =>
    intro target_it updated h
    simp only [SeparatePointer.velocity_loop, Option.bind_eq_bind, Option.pure_def,
      Option.bind_eq_some, Option.some.injEq] at h
    obtain ⟨target, htarget, first, hfirst, others, hothers, rfl⟩ := h
    obtain ⟨hlen, hrest⟩ := ih (target_it + 1) others hothers
    refine ⟨by simp [hlen], ?_⟩
    intro i hi
    cases i with
    | zero => exact ⟨target, missile, htarget, by simp, by simpa using hfirst.symm⟩
    | succ j =>
      obtain ⟨t, m, ht, hm, hu⟩ := hrest j (by simpa using hi)
      refine ⟨t, m, ?_, by simpa using hm, by simpa using hu⟩
      rw [← ht]
      congr 1
      omega

theorem separate_update_loop_fixed_target {S V : Type} [OfScientific S]
    (ops : VectorOps S V) (write_at_end : Bool) (planes : List (Plane V)) (targets : List Nat)
    (time : S) (target_it : Nat) :
    ∀ (missiles : List (SeparatePointer.Missile V))
      (updated : List (SeparatePointer.Missile V)),
      SeparatePointer.update_loop ops write_at_end planes targets time target_it missiles
        = some updated →
      updated.length = missiles.length ∧
      ∀ i, i < missiles.length → ∃ target missile,
        targets[target_it]? = some target ∧ missiles[i]? = some missile ∧
        updated[i]? = SeparatePointer.Missile.Update ops write_at_end planes time target
          missile := by
  intro missiles
  induction missiles with
  | nil =>
    intro updated h
    simp only [SeparatePointer.update_loop, Option.some.injEq] at h
    subst h
    exact ⟨rfl, fun i hi => absurd hi (Nat.not_lt_zero i)⟩
  | cons missile rest ih =>
    intro updated h
    simp only [SeparatePointer.update_loop, Option.bind_eq_bind, Option.pure_def,
      Option.bind_eq_some, Option.some.injEq] at h
    obtain ⟨target, htarget, first, hfirst, others, hothers, rfl⟩ := h
    obtain ⟨hlen, hrest⟩ := ih others hothers
    refine ⟨by simp [hlen], ?_⟩
    intro i hi
    cases i with
    | zero => exact ⟨target, missile, htarget, by simp, by simpa using hfirst.symm⟩
    | succ j =>
      obtain ⟨t, m, ht, hm, hu⟩ := hrest j (by simpa using hi)
      exact ⟨t, m, ht, by simpa using hm, by simpa using hu⟩

theorem real_sqrt_hundred : Real.sqrt 100 = 10 := by
  rw [show (100 : ℝ) = 10 ^ 2 by norm_num, Real.sqrt_sq (by norm_num)]

/-- C1 (the code departs from the claim): on the samples `[5, 1, 3, 2, 4]` the median
that `main` reads is `data_points [ 3 ]` of the sorted samples, which is 4, whereas the
element at 1-based index `⌈6/2⌉ = 3` of the sorted samples is 3. -/
theorem median_of_five_samples :
    sort [5, 1, 3, 2, 4] = [1, 2, 3, 4, 5] ∧
      median_of (sort [5, 1, 3, 2, 4]) = some 4 ∧
      (sort [5, 1, 3, 2, 4])[3 - 1]? = some 3 ∧
      statistics [5, 1, 3, 2, 4] = some ⟨1, 5, 4, 3, 10, 5⟩ := by
  decide

/-- C2 (the code departs from the claim): for a single sample `x` the lowest and highest
values are `x`, but the median is read at index `(1 + 1) / 2 = 1` of a vector of size 1,
outside of it, so the statistics part has no defined result; for `x = 7` the mean is 7
and the sum of squared differences is 0. -/
theorem single_sample_statistics (x : Int) :
    front (sort [x]) = some x ∧ back (sort [x]) = some x ∧
      ((sort [x]).length + 1) / 2 = 1 ∧ (sort [x]).length = 1 ∧
      median_of (sort [x]) = none ∧ statistics [x] = none ∧
      mean_of (sort [7]) = some 7 ∧ squares_of 7 (sort [7]) = 0 := by
  have hsort : sort [x] = [x] := rfl
  rw [hsort]
  refine ⟨rfl, rfl, by simp, rfl, by simp [median_of], ?_, by decide, by decide⟩
  simp [statistics, hsort, front, back, median_of]

/-- C4 (the code departs from the claim): under the `DIRECT_VALUE` layout and under the
embedded-pointer layout the single-loop tick and the two-loop tick give the same missiles
for every population, write ordering and time step; under `SEPARATE_POINTER` they do not:
on two planes at `(10, 0, 0)` and `(-10, 0, 0)`, `targets = [&planes[0], &planes[1]]` and
two missiles at the origin, the single loop sends both missiles towards `planes[0]` while
the two loops send the second one towards `planes[1]`. -/
theorem fused_and_split_tick {S V : Type} [OfScientific S] (ops : VectorOps S V)
    (write_at_end : Bool) (planes : List (Plane V)) (time : S)
    (direct : List (DirectValue.Missile V)) (embedded : List (EmbeddedPointer.Missile V)) :
    DirectValue.tick ops false write_at_end time direct
        = DirectValue.tick ops true write_at_end time direct ∧
      EmbeddedPointer.tick ops false write_at_end planes time embedded
        = EmbeddedPointer.tick ops true write_at_end planes time embedded ∧
      SeparatePointer.tick (vector3Ops Rat.sqrt) false true
          [⟨⟨10, 0, 0⟩, ⟨0, 0, 0⟩⟩, ⟨⟨-10, 0, 0⟩, ⟨0, 0, 0⟩⟩] [0, 1] delta_time
          [⟨⟨0, 0, 0⟩, ⟨0, 0, 0⟩⟩, ⟨⟨0, 0, 0⟩, ⟨0, 0, 0⟩⟩]
        = some [⟨⟨0.384, 0, 0⟩, ⟨12.8, 0, 0⟩⟩, ⟨⟨0.384, 0, 0⟩, ⟨12.8, 0, 0⟩⟩] ∧
      SeparatePointer.tick (vector3Ops Rat.sqrt) true true
          [⟨⟨10, 0, 0⟩, ⟨0, 0, 0⟩⟩, ⟨⟨-10, 0, 0⟩, ⟨0, 0, 0⟩⟩] [0, 1] delta_time
          [⟨⟨0, 0, 0⟩, ⟨0, 0, 0⟩⟩, ⟨⟨0, 0, 0⟩, ⟨0, 0, 0⟩⟩]
        = some [⟨⟨0.384, 0, 0⟩, ⟨12.8, 0, 0⟩⟩, ⟨⟨-0.384, 0, 0⟩, ⟨-12.8, 0, 0⟩⟩] := by
  refine ⟨?_, ?_, ?_, ?_⟩
  · simp only [DirectValue.tick, direct_update_loop_split, if_true, Bool.false_eq_true,
      if_false]
  · simp only [EmbeddedPointer.tick, embedded_update_loop_split, if_true,
      Bool.false_eq_true, if_false]
    cases EmbeddedPointer.velocity_loop ops planes embedded <;> rfl
  · simp [SeparatePointer.tick, SeparatePointer.update_loop, SeparatePointer.Missile.Update,
      vector3Ops, Vector3.add, Vector3.sub, Vector3.mul, Vector3.Normalized, Vector3.Length,
      speed, delta_time, rat_sqrt_hundred]
    norm_num
  · simp [SeparatePointer.tick, SeparatePointer.velocity_loop, SeparatePointer.position_loop,
      SeparatePointer.Missile.UpdateVelocity, SeparatePointer.Missile.UpdatePosition,
      vector3Ops, Vector3.add, Vector3.sub, Vector3.mul, Vector3.Normalized, Vector3.Length,
      speed, delta_time, rat_sqrt_hundred]
    norm_num

/-- C5 (the code departs from the claim): under `SEPARATE_POINTER` the single loop never
advances `target_it`, so for any two missiles both are updated against `targets [ 0 ]`;
with `targets = [&planes[0], &planes[1]]` the missile at index 1 ends where an update
against `planes[0]` puts it, not where an update against `planes[1]` does. The two-loop
velocity pass does read `targets [ 1 ]` for the missile at index 1. -/
theorem separate_pointer_single_loop_target {S V : Type} [OfScientific S] (ops : VectorOps S V)
    (write_at_end : Bool) (planes : List (Plane V)) (targets : List Nat) (time : S)
    (first second : SeparatePointer.Missile V) :
    SeparatePointer.tick ops false write_at_end planes targets time [first, second]
        = (do
            let target ← targets[0]?
            let first ← SeparatePointer.Missile.Update ops write_at_end planes time target first
            let target ← targets[0]?
            let second ← SeparatePointer.Missile.Update ops write_at_end planes time target second
            pure [first, second]) ∧
      SeparatePointer.velocity_loop ops planes targets 0 [first, second]
        = (do
            let target ← targets[0]?
            let first ← SeparatePointer.Missile.UpdateVelocity ops planes target first
            let target ← targets[1]?
            let second ← SeparatePointer.Missile.UpdateVelocity ops planes target second
            pure [first, second]) ∧
      (SeparatePointer.tick (vector3Ops Rat.sqrt) false true
          [⟨⟨10, 0, 0⟩, ⟨0, 0, 0⟩⟩, ⟨⟨-10, 0, 0⟩, ⟨0, 0, 0⟩⟩] [0, 1] delta_time
          [⟨⟨0, 0, 0⟩, ⟨0, 0, 0⟩⟩, ⟨⟨0, 0, 0⟩, ⟨0, 0, 0⟩⟩]).map (fun missiles => missiles[1]?)
        = some (SeparatePointer.Missile.Update (vector3Ops Rat.sqrt) true
            [⟨⟨10, 0, 0⟩, ⟨0, 0, 0⟩⟩, ⟨⟨-10, 0, 0⟩, ⟨0, 0, 0⟩⟩] delta_time 0
            ⟨⟨0, 0, 0⟩, ⟨0, 0, 0⟩⟩) ∧
      SeparatePointer.Missile.Update (vector3Ops Rat.sqrt) true
          [⟨⟨10, 0, 0⟩, ⟨0, 0, 0⟩⟩, ⟨⟨-10, 0, 0⟩, ⟨0, 0, 0⟩⟩] delta_time 0
          ⟨⟨0, 0, 0⟩, ⟨0, 0, 0⟩⟩
        = some ⟨⟨0.384, 0, 0⟩, ⟨12.8, 0, 0⟩⟩ ∧
      SeparatePointer.Missile.Update (vector3Ops Rat.sqrt) true
          [⟨⟨10, 0, 0⟩, ⟨0, 0, 0⟩⟩, ⟨⟨-10, 0, 0⟩, ⟨0, 0, 0⟩⟩] delta_time 1
          ⟨⟨0, 0, 0⟩, ⟨0, 0, 0⟩⟩
        = some ⟨⟨-0.384, 0, 0⟩, ⟨-12.8, 0, 0⟩⟩ := by
  refine ⟨?_, ?_, ?_, ?_, ?_⟩
  · simp only [SeparatePointer.tick, SeparatePointer.update_loop, Bool.false_eq_true, if_false]
    cases targets[0]? with
    | none => rfl
    | some target =>
      simp only [Option.bind_eq_bind, Option.some_bind, Option.pure_def]
      cases SeparatePointer.Missile.Update ops write_at_end planes time target first <;>
        cases SeparatePointer.Missile.Update ops write_at_end planes time target second <;> rfl
  · simp only [SeparatePointer.velocity_loop]
    cases targets[0]? with
    | none => rfl
    | some target =>
      simp only [Option.bind_eq_bind, Option.some_bind, Option.pure_def, zero_add]
      cases SeparatePointer.Missile.UpdateVelocity ops planes target first with
      | none => rfl
      | some a =>
        simp only [Option.some_bind]
        cases targets[1]? with
        | none => rfl
        | some target1 =>
          simp only [Option.some_bind]
          cases SeparatePointer.Missile.UpdateVelocity ops planes target1 second <;> rfl
  · simp [SeparatePointer.tick, SeparatePointer.update_loop, SeparatePointer.Missile.Update,
      vector3Ops, Vector3.add, Vector3.sub, Vector3.mul, Vector3.Normalized, Vector3.Length,
      speed, delta_time, rat_sqrt_hundred]
  · simp [SeparatePointer.Missile.Update,
      vector3Ops, Vector3.add, Vector3.sub, Vector3.mul, Vector3.Normalized, Vector3.Length,
      speed, delta_time, rat_sqrt_hundred]
    norm_num
  · simp [SeparatePointer.Missile.Update,
      vector3Ops, Vector3.add, Vector3.sub, Vector3.mul, Vector3.Normalized, Vector3.Length,
      speed, delta_time, rat_sqrt_hundred]
    norm_num

/-- C6: under each of the three layouts, for every missile, target and time step,
`Update` compiled without `WRITE_AT_END` (velocity stored first, then
`position += velocity * time`) and with it (local velocity, new position, then the
velocity stored) give the same missile, hence the same position and velocity. -/
theorem update_write_orderings_agree {S V : Type} [OfScientific S] (ops : VectorOps S V)
    (planes : List (Plane V)) (time : S) (target : Nat) (direct : DirectValue.Missile V)
    (embedded : EmbeddedPointer.Missile V) (separate : SeparatePointer.Missile V) :
    direct.Update ops false time = direct.Update ops true time ∧
      embedded.Update ops false planes time = embedded.Update ops true planes time ∧
      SeparatePointer.Missile.Update ops false planes time target separate
        = SeparatePointer.Missile.Update ops true planes time target separate := by
  refine ⟨rfl, ?_, ?_⟩
  · rw [embedded_Update_split, embedded_Update_split]
    cases embedded.UpdateVelocity ops planes <;> rfl
  · rw [separate_Update_split, separate_Update_split]
    cases SeparatePointer.Missile.UpdateVelocity ops planes target separate <;> rfl

/-- C7: for every non-empty sample sequence, the lowest value (`front ( )` of the sorted
samples) is a sample that is at most every sample, and the highest value (`back ( )` of
the sorted samples) is a sample that is at least every sample; whenever the statistics
part has a result, these are the values it reports. -/
theorem lowest_highest_extremal (samples : List Int) (hne : samples ≠ []) :
    ∃ lowest highest : Int,
      front (sort samples) = some lowest ∧ back (sort samples) = some highest ∧
      lowest ∈ samples ∧ highest ∈ samples ∧
      (∀ x ∈ samples, lowest ≤ x ∧ x ≤ highest) ∧
      ∀ s, statistics samples = some s → s.lowest = lowest ∧ s.highest = highest := by
  have hsne := sort_ne_nil samples hne
  have hfront : front (sort samples) = some ((sort samples).head hsne) :=
    List.head?_eq_head hsne
  have hback : back (sort samples) = some ((sort samples).getLast hsne) :=
    List.getLast?_eq_getLast _ hsne
  refine ⟨(sort samples).head hsne, (sort samples).getLast hsne, hfront, hback, ?_, ?_, ?_, ?_⟩
  · exact (sort_perm samples).mem_iff.mp (List.head_mem hsne)
  · exact (sort_perm samples).mem_iff.mp (List.getLast_mem hsne)
  · intro x hx
    have hx2 : x ∈ sort samples := (sort_perm samples).mem_iff.mpr hx
    exact ⟨sorted_head_le _ (sort_sorted samples) _ hfront x hx2,
      sorted_le_getLast _ (sort_sorted samples) _ hback x hx2⟩
  · intro s hs
    obtain ⟨h1, h2, _⟩ := statistics_eq_some samples s hs
    rw [hfront] at h1
    rw [hback] at h2
    exact ⟨(Option.some.inj h1).symm, (Option.some.inj h2).symm⟩

/-- C7 at the samples `[5, 1, 3, 2, 4]`: the lowest value is 1 and the highest is 5. -/
theorem lowest_highest_extremal_witness :
    ([5, 1, 3, 2, 4] : List Int) ≠ [] ∧
      (∃ lowest highest : Int,
        front (sort [5, 1, 3, 2, 4]) = some lowest ∧ back (sort [5, 1, 3, 2, 4]) = some highest ∧
        lowest ∈ ([5, 1, 3, 2, 4] : List Int) ∧ highest ∈ ([5, 1, 3, 2, 4] : List Int) ∧
        (∀ x ∈ ([5, 1, 3, 2, 4] : List Int), lowest ≤ x ∧ x ≤ highest) ∧
        ∀ s, statistics [5, 1, 3, 2, 4] = some s → s.lowest = lowest ∧ s.highest = highest) ∧
      front (sort [5, 1, 3, 2, 4]) = some 1 ∧ back (sort [5, 1, 3, 2, 4]) = some 5 :=
  ⟨by decide, lowest_highest_extremal [5, 1, 3, 2, 4] (by decide), by decide, by decide⟩

/-- C8 (counterexample): on the three samples `2 ^ 63 - 1` the sum of the samples wraps
around `2 ^ 64`; `⌊Σ x / N⌋` is `2 ^ 63 - 1` and the exact `Σ (x − m)²` is 0, below `2 ^ 64`,
but the mean the code computes is 3074457345618258601 and the accumulator handed to the
square root is 12297829382473034412. -/
theorem squares_accumulator_wrapped_sum :
    ([9223372036854775807, 9223372036854775807, 9223372036854775807] : List Int) ≠ [] ∧
      (∀ x ∈ ([9223372036854775807, 9223372036854775807, 9223372036854775807] : List Int),
        0 ≤ x ∧ x < 2 ^ 63) ∧
      ([9223372036854775807, 9223372036854775807, 9223372036854775807] : List Int).sum / 3
        = 9223372036854775807 ∧
      (([9223372036854775807, 9223372036854775807, 9223372036854775807] : List Int).map
        (fun x => (x - 9223372036854775807) ^ 2)).sum = 0 ∧
      mean_of (sort [9223372036854775807, 9223372036854775807, 9223372036854775807])
        = some 3074457345618258601 ∧
      squares_of 3074457345618258601
          (sort [9223372036854775807, 9223372036854775807, 9223372036854775807])
        = 12297829382473034412 ∧
      squares_of 3074457345618258601
          (sort [9223372036854775807, 9223372036854775807, 9223372036854775807]) ≠ 0 := by
  decide

/-- C8 (amended): for every non-empty sequence of non-negative 64-bit samples whose sum is
below `2 ^ 64`, with the integer mean `m = ⌊Σ x / N⌋`, the mean the code computes is `m`
and the `unsigned long long` accumulator handed to the square root equals the exact
`Σ (x − m)²` whenever that sum is below `2 ^ 64`, although each difference is taken modulo
`2 ^ 64`; hence the standard deviation is `std::sqrt` of that sum, converted to `double`,
divided by `N`, and whenever the statistics part has a result these are its operands. -/
theorem squares_accumulator_exact {D : Type} (ops : DoubleOps D) (samples : List Int)
    (hne : samples ≠ []) (hrange : ∀ x ∈ samples, 0 ≤ x ∧ x < 2 ^ 63)
    (hsum : samples.sum < 2 ^ 64)
    (hsquares : (samples.map
      (fun x => (x - samples.sum / (samples.length : Int)) ^ 2)).sum < 2 ^ 64) :
    mean_of (sort samples) = some (samples.sum / (samples.length : Int)).toNat ∧
      ((squares_of (samples.sum / (samples.length : Int)).toNat (sort samples) : Nat) : Int)
        = (samples.map (fun x => (x - samples.sum / (samples.length : Int)) ^ 2)).sum ∧
      standard_deviation_of ops (samples.sum / (samples.length : Int)).toNat (sort samples)
        = ops.sqrt (ops.div
            (ops.ofU64 (samples.map
              (fun x => (x - samples.sum / (samples.length : Int)) ^ 2)).sum.toNat)
            (ops.ofSize samples.length)) ∧
      ∀ s, statistics samples = some s →
        (s.mean : Int) = samples.sum / (samples.length : Int) ∧
        (s.squares : Int)
          = (samples.map (fun x => (x - samples.sum / (samples.length : Int)) ^ 2)).sum ∧
        s.count = samples.length := by
  obtain ⟨m, hmean, _, hfloor, hexact, hstat⟩ := squares_of_wrapped_mean samples hne hrange
  have hm : (m : Int) = samples.sum / (samples.length : Int) := hfloor hsum
  have hnat : (samples.sum / (samples.length : Int)).toNat = m := by
    rw [← hm, Int.toNat_natCast]
  rw [hnat]
  rw [← hm] at hsquares ⊢
  have hsq := hexact hsquares
  refine ⟨hmean, hsq, ?_, ?_⟩
  · unfold standard_deviation_of
    rw [sort_length, ← hsq, Int.toNat_natCast]
  · intro s hs
    obtain ⟨h1, h2, h3⟩ := hstat s hs
    rw [h1, h2]
    exact ⟨rfl, hsq, h3⟩

/-- C8 at the samples `[5, 1, 3, 2, 4]`: the mean is 3, the samples 1 and 2 lie below it,
and the accumulator is `4 + 4 + 0 + 1 + 1 = 10`; with real numbers standing for `double`,
the standard deviation is the square root of `10 / 5`. -/
theorem squares_accumulator_exact_witness :
    (([5, 1, 3, 2, 4] : List Int) ≠ [] ∧
        (∀ x ∈ ([5, 1, 3, 2, 4] : List Int), 0 ≤ x ∧ x < 2 ^ 63) ∧
        ([5, 1, 3, 2, 4] : List Int).sum < 2 ^ 64 ∧
        (([5, 1, 3, 2, 4] : List Int).map
          (fun x => (x - ([5, 1, 3, 2, 4] : List Int).sum
            / (([5, 1, 3, 2, 4] : List Int).length : Int)) ^ 2)).sum < 2 ^ 64) ∧
      mean_of (sort [5, 1, 3, 2, 4]) = some 3 ∧
      squares_of 3 (sort [5, 1, 3, 2, 4]) = 10 ∧
      standard_deviation_of
          (⟨fun n => (n : ℝ), fun n => (n : ℝ), fun a b => a / b, Real.sqrt⟩ : DoubleOps ℝ)
          3 (sort [5, 1, 3, 2, 4])
        = Real.sqrt ((10 : ℝ) / 5) :=
  ⟨⟨by decide, by decide, by decide, by decide⟩,
    (squares_accumulator_exact
      (⟨fun n => (n : ℝ), fun n => (n : ℝ), fun a b => a / b, Real.sqrt⟩ : DoubleOps ℝ)
      [5, 1, 3, 2, 4] (by decide) (by decide) (by decide) (by decide)).1.trans (by decide),
    by decide,
    ((squares_accumulator_exact
      (⟨fun n => (n : ℝ), fun n => (n : ℝ), fun a b => a / b, Real.sqrt⟩ : DoubleOps ℝ)
      [5, 1, 3, 2, 4] (by decide) (by decide) (by decide) (by decide)).2.2.1).trans
      (by
        show Real.sqrt (((10 : ℕ) : ℝ) / ((5 : ℕ) : ℝ)) = Real.sqrt ((10 : ℝ) / 5)
        congr 1)⟩

/-- C10: for every non-empty sequence of non-negative samples whose sum is below `2 ^ 64`,
the mean is `⌊Σ x / N⌋`, the sum being accumulated in `unsigned long long` before the
single division; whenever the statistics part has a result, this is the mean it reports. -/
theorem mean_is_floor_of_sum (samples : List Int) (hne : samples ≠ [])
    (hnonneg : ∀ x ∈ samples, 0 ≤ x) (hsum : samples.sum < 2 ^ 64) :
    ((sum_of (sort samples) : Nat) : Int) = samples.sum ∧
      mean_of (sort samples) = some (samples.sum / (samples.length : Int)).toNat ∧
      0 ≤ samples.sum / (samples.length : Int) ∧
      ∀ s, statistics samples = some s →
        (s.mean : Int) = samples.sum / (samples.length : Int) := by
  have hexact := sum_of_exact samples hnonneg hsum
  have hmean := mean_of_sort samples hne
  have hdiv : (((sum_of (sort samples) / samples.length : Nat)) : Int)
      = samples.sum / (samples.length : Int) := by
    rw [← hexact]
    norm_cast
  have h0 : 0 ≤ samples.sum / (samples.length : Int) := by
    rw [← hdiv]
    exact Int.natCast_nonneg _
  refine ⟨hexact, ?_, h0, ?_⟩
  · rw [hmean, ← hdiv, Int.toNat_natCast]
  · intro s hs
    have h4 := (statistics_eq_some samples s hs).2.2.2.1
    rw [hmean] at h4
    rw [← Option.some.inj h4, hdiv]

/-- C10 at the samples `[5, 1, 3, 2, 4]`: the sum is 15 and the mean is 3. -/
theorem mean_is_floor_of_sum_witness :
    (([5, 1, 3, 2, 4] : List Int) ≠ [] ∧ (∀ x ∈ ([5, 1, 3, 2, 4] : List Int), 0 ≤ x) ∧
        ([5, 1, 3, 2, 4] : List Int).sum < 2 ^ 64) ∧
      mean_of (sort [5, 1, 3, 2, 4]) = some 3 ∧
      ∀ s, statistics [5, 1, 3, 2, 4] = some s → (s.mean : Int) = 3 :=
  ⟨⟨by decide, by decide, by decide⟩,
    (mean_is_floor_of_sum [5, 1, 3, 2, 4] (by decide) (by decide) (by decide)).2.1.trans
      (by decide),
    fun s hs => ((mean_is_floor_of_sum [5, 1, 3, 2, 4] (by decide) (by decide)
      (by decide)).2.2.2 s hs).trans (by decide)⟩

/-- C9 (the code departs from the claim): over the real numbers, under `SEPARATE_POINTER`
with the single loop, two planes at rest at `(10, 0, 0)` and `(-10, 0, 0)`,
`targets = [&planes[0], &planes[1]]` and two missiles at the origin: the missile at index 1
starts at distance 10 from its target `planes[1]`; one tick with `delta_time` moves it to
`(0.384, 0, 0)`, at distance 10.384 from its target, and not to distance
`|10 − speed * delta_time| = 9.616`. -/
theorem separate_pointer_single_loop_diverges :
    SeparatePointer.tick (vector3Ops Real.sqrt) false true
        [⟨⟨10, 0, 0⟩, ⟨0, 0, 0⟩⟩, ⟨⟨-10, 0, 0⟩, ⟨0, 0, 0⟩⟩] [0, 1] delta_time
        [⟨⟨0, 0, 0⟩, ⟨0, 0, 0⟩⟩, ⟨⟨0, 0, 0⟩, ⟨0, 0, 0⟩⟩]
      = some [⟨⟨0.384, 0, 0⟩, ⟨12.8, 0, 0⟩⟩, ⟨⟨0.384, 0, 0⟩, ⟨12.8, 0, 0⟩⟩] ∧
      distance Real.sqrt (⟨-10, 0, 0⟩ : Vector3 ℝ) ⟨0, 0, 0⟩ = 10 ∧
      distance Real.sqrt (⟨-10, 0, 0⟩ : Vector3 ℝ) ⟨0.384, 0, 0⟩ = 10.384 ∧
      |(10 : ℝ) - speed * delta_time| = 9.616 := by
  refine ⟨?_, ?_, ?_, ?_⟩
  · simp [SeparatePointer.tick, SeparatePointer.update_loop, SeparatePointer.Missile.Update,
      vector3Ops, Vector3.add, Vector3.sub, Vector3.mul, Vector3.Normalized, Vector3.Length,
      speed, delta_time, real_sqrt_hundred]
    norm_num
  · simp [distance, Vector3.Length, Vector3.sub, real_sqrt_hundred]
  · simp only [distance, Vector3.Length, Vector3.sub]
    rw [show ((-10 : ℝ) - 0.384) * (-10 - 0.384) + (0 - 0) * (0 - 0) + (0 - 0) * (0 - 0)
      = 10.384 ^ 2 by norm_num, Real.sqrt_sq (by norm_num)]
  · rw [speed_real, show (delta_time : ℝ) = 0.03 from rfl]
    norm_num [abs_of_pos]

end LoopWithIOTest
